import Mathlib

/-!
Verification development for the SMN copy-number pipeline.

Shallow embedding of the threshold manager (`core_engine.py`), the copy-number
caller (`adaptive_copy_number_caller.py`), the MLPA threshold normalizer
(`mlpa_threshold_normalizer.py`) and the depth extractor fallback logic
(`depth_extactor.py`).  Python floats are modelled as rationals.
-/

set_option maxRecDepth 4000

/-- The six-boundary threshold record managed by
`core_engine.MLPAThresholdManager` (a Python dict with these six keys). -/
structure ThresholdSet where
  homozygous_deletion : ℚ
  heterozygous_deletion : ℚ
  normal_lower : ℚ
  normal_upper : ℚ
  heterozygous_duplication : ℚ
  homozygous_duplication : ℚ
deriving DecidableEq, Repr

/-- The ordering invariant on threshold sets stated by the data model. -/
def validThresholds (t : ThresholdSet) : Prop :=
  t.homozygous_deletion < t.heterozygous_deletion ∧
  t.heterozygous_deletion ≤ t.normal_lower ∧
  t.normal_lower < t.normal_upper ∧
  t.normal_upper ≤ t.heterozygous_duplication ∧
  t.heterozygous_duplication < t.homozygous_duplication

instance (t : ThresholdSet) : Decidable (validThresholds t) := by
  unfold validThresholds; infer_instance

/-- `MLPAThresholdManager.default_thresholds` from `core_engine.py`. -/
def defaultThresholds : ThresholdSet :=
  { homozygous_deletion := -5/2
    heterozygous_deletion := -3/2
    normal_lower := -3/2
    normal_upper := 3/2
    heterozygous_duplication := 5/2
    homozygous_duplication := 7/2 }

/-- `MLPAThresholdManager._z_score_to_copy_number` from `core_engine.py`:
the if/elif chain mapping a z-score to a copy number. -/
def zScoreToCopyNumber (z : ℚ) (t : ThresholdSet) : ℕ :=
  if z ≤ t.homozygous_deletion then 0
  else if z ≤ t.heterozygous_deletion then 1
  else if t.normal_lower < z ∧ z ≤ t.normal_upper then 2
  else if z ≤ t.heterozygous_duplication then 3
  else 4

lemma zcn_of_le_hd {z : ℚ} {t : ThresholdSet} (h : z ≤ t.homozygous_deletion) :
    zScoreToCopyNumber z t = 0 := by
  unfold zScoreToCopyNumber; rw [if_pos h]

lemma zcn_of_le_het {z : ℚ} {t : ThresholdSet} (h0 : ¬ z ≤ t.homozygous_deletion)
    (h1 : z ≤ t.heterozygous_deletion) : zScoreToCopyNumber z t = 1 := by
  unfold zScoreToCopyNumber; rw [if_neg h0, if_pos h1]

lemma zcn_of_normal {z : ℚ} {t : ThresholdSet} (h0 : ¬ z ≤ t.homozygous_deletion)
    (h1 : ¬ z ≤ t.heterozygous_deletion)
    (h2 : t.normal_lower < z ∧ z ≤ t.normal_upper) : zScoreToCopyNumber z t = 2 := by
  unfold zScoreToCopyNumber; rw [if_neg h0, if_neg h1, if_pos h2]

lemma zcn_of_het_dup {z : ℚ} {t : ThresholdSet} (h0 : ¬ z ≤ t.homozygous_deletion)
    (h1 : ¬ z ≤ t.heterozygous_deletion)
    (h2 : ¬ (t.normal_lower < z ∧ z ≤ t.normal_upper))
    (h3 : z ≤ t.heterozygous_duplication) : zScoreToCopyNumber z t = 3 := by
  unfold zScoreToCopyNumber; rw [if_neg h0, if_neg h1, if_neg h2, if_pos h3]

lemma zcn_of_top {z : ℚ} {t : ThresholdSet} (h0 : ¬ z ≤ t.homozygous_deletion)
    (h1 : ¬ z ≤ t.heterozygous_deletion)
    (h2 : ¬ (t.normal_lower < z ∧ z ≤ t.normal_upper))
    (h3 : ¬ z ≤ t.heterozygous_duplication) : zScoreToCopyNumber z t = 4 := by
  unfold zScoreToCopyNumber; rw [if_neg h0, if_neg h1, if_neg h2, if_neg h3]

/-- C1: for every threshold set satisfying the ordering invariant and every
rational `z`, the chain mapping is total with value in `{0,…,4}` and the five
buckets are characterized exactly (hence pairwise disjoint and exhaustive):
`0` iff `z ≤ homozygous_deletion`; `1` iff
`homozygous_deletion < z ≤ heterozygous_deletion`; `2` iff
`normal_lower < z ≤ normal_upper`; `3` iff `z` exceeds the heterozygous
deletion boundary, is not in the normal band and is `≤ heterozygous_duplication`;
`4` iff `z > heterozygous_duplication`. -/
theorem zScoreToCopyNumber_total_unique (t : ThresholdSet) (z : ℚ)
    (h : validThresholds t) :
    zScoreToCopyNumber z t ≤ 4 ∧
    (zScoreToCopyNumber z t = 0 ↔ z ≤ t.homozygous_deletion) ∧
    (zScoreToCopyNumber z t = 1 ↔
      t.homozygous_deletion < z ∧ z ≤ t.heterozygous_deletion) ∧
    (zScoreToCopyNumber z t = 2 ↔ t.normal_lower < z ∧ z ≤ t.normal_upper) ∧
    (zScoreToCopyNumber z t = 3 ↔
      t.heterozygous_deletion < z ∧ z ≤ t.heterozygous_duplication ∧
        ¬ (t.normal_lower < z ∧ z ≤ t.normal_upper)) ∧
    (zScoreToCopyNumber z t = 4 ↔ t.heterozygous_duplication < z) := by
  obtain ⟨i1, i2, i3, i4, i5⟩ := h
  by_cases h0 : z ≤ t.homozygous_deletion
  · rw [zcn_of_le_hd h0]
    refine ⟨by norm_num, iff_of_true rfl h0, ?_, ?_, ?_, ?_⟩
    · exact iff_of_false (by decide) (fun hc => absurd h0 (not_le.mpr hc.1))
    · exact iff_of_false (by decide) (fun hc => by
        have : t.normal_lower < z := hc.1
        linarith)
    · exact iff_of_false (by decide) (fun hc => by
        have : t.heterozygous_deletion < z := hc.1
        linarith)
    · exact iff_of_false (by decide) (fun hc => by linarith)
  · by_cases h1 : z ≤ t.heterozygous_deletion
    · rw [zcn_of_le_het h0 h1]
      refine ⟨by norm_num, iff_of_false (by decide) h0, ?_, ?_, ?_, ?_⟩
      · exact iff_of_true rfl ⟨not_le.mp h0, h1⟩
      · exact iff_of_false (by decide) (fun hc => by
          have : t.normal_lower < z := hc.1
          linarith)
      · exact iff_of_false (by decide) (fun hc => by
          have : t.heterozygous_deletion < z := hc.1
          linarith)
      · exact iff_of_false (by decide) (fun hc => by linarith)
    · by_cases h2 : t.normal_lower < z ∧ z ≤ t.normal_upper
      · rw [zcn_of_normal h0 h1 h2]
        refine ⟨by norm_num, iff_of_false (by decide) h0, ?_, ?_, ?_, ?_⟩
        · exact iff_of_false (by decide) (fun hc => absurd hc.2 h1)
        · exact iff_of_true rfl h2
        · exact iff_of_false (by decide) (fun hc => absurd h2 hc.2.2)
        · exact iff_of_false (by decide) (fun hc => by
            have := h2.2
            linarith)
      · by_cases h3 : z ≤ t.heterozygous_duplication
        · rw [zcn_of_het_dup h0 h1 h2 h3]
          refine ⟨by norm_num, iff_of_false (by decide) h0, ?_, ?_, ?_, ?_⟩
          · exact iff_of_false (by decide) (fun hc => absurd hc.2 h1)
          · exact iff_of_false (by decide) h2
          · exact iff_of_true rfl ⟨not_le.mp h1, h3, h2⟩
          · exact iff_of_false (by decide) (fun hc => absurd h3 (not_le.mpr hc))
        · rw [zcn_of_top h0 h1 h2 h3]
          refine ⟨by norm_num, iff_of_false (by decide) h0, ?_, ?_, ?_, ?_⟩
          · exact iff_of_false (by decide) (fun hc => absurd hc.2 h1)
          · exact iff_of_false (by decide) (fun hc => by
              have := hc.2
              linarith)
          · exact iff_of_false (by decide) (fun hc => absurd hc.2.1 h3)
          · exact iff_of_true rfl (not_le.mp h3)

/-- Witness for C1: the default threshold set is valid and the
characterization holds concretely at `z = 0` (which lands in bucket 2). -/
theorem zScoreToCopyNumber_total_unique_witness :
    zScoreToCopyNumber 0 defaultThresholds = 2 ∧
    (zScoreToCopyNumber 0 defaultThresholds = 2 ↔
      defaultThresholds.normal_lower < 0 ∧ (0:ℚ) ≤ defaultThresholds.normal_upper) := by
  have h := zScoreToCopyNumber_total_unique defaultThresholds 0
    (by norm_num [validThresholds, defaultThresholds])
  exact ⟨h.2.2.2.1.mpr (by norm_num [defaultThresholds]), h.2.2.2.1⟩

/-- One bucket of the per-exon `copy_number_mapping` table of
`adaptive_copy_number_caller.py`: `z_min`/`z_max` bounds, `none` standing for
the Python `-float('inf')` / `float('inf')` sentinels. -/
structure CNBucket where
  lo : Option ℚ
  hi : Option ℚ
deriving DecidableEq, Repr

/-- The membership test `bounds['z_min'] <= z_score < bounds['z_max']` from
`SMACopyNumberCaller.estimate_copy_number`. -/
def inBucket (z : ℚ) (b : CNBucket) : Bool :=
  (match b.lo with
   | none => true
   | some a => decide (a ≤ z)) &&
  (match b.hi with
   | none => true
   | some c => decide (z < c))

/-- `SMACopyNumberCaller._calculate_confidence`: boundary-distance confidence,
clamped into `[0.1, 1.0]`.  The source checks `z_max == inf` first, then
`z_min == -inf`, then the bounded case; with both bounds infinite the Python
expression `min(1.0, inf/2)` evaluates to `1.0`. -/
def calculateConfidence (z : ℚ) (b : CNBucket) : ℚ :=
  match b.hi, b.lo with
  | none, some lo => max (1/10) (min 1 (|z - lo| / 2))
  | none, none => 1
  | some hi, none => max (1/10) (min 1 (|z - hi| / 2))
  | some hi, some lo =>
      max (1/10) (min 1 (min (|z - lo|) (|z - hi|) / ((hi - lo) / 2)))

/-- `SMACopyNumberCaller.estimate_copy_number` body after the exon lookup:
scan the mapping in order, return the first bucket containing `z` with its
confidence; otherwise the defensive fallback `(0 if z < -3 else 4, 0.5)`. -/
def estimateCopyNumber (mapping : List (ℕ × CNBucket)) (z : ℚ) : ℕ × ℚ :=
  match mapping.find? (fun p => inBucket z p.2) with
  | some p => (p.1, calculateConfidence z p.2)
  | none => (if z < -3 then 0 else 4, 1/2)

/-- Per-exon threshold record of `adaptive_copy_number_caller.py`. -/
structure ExonThresholdConfig where
  deletion_threshold : ℚ
  duplication_threshold : ℚ
  copy_number_mapping : List (ℕ × CNBucket)
deriving DecidableEq, Repr

/-- `SMACopyNumberCaller.estimate_copy_number` in full: a missing exon key
returns `(None, 0.0)`, otherwise the interval-table scan above. -/
def callerEstimate (ths : List (String × ExonThresholdConfig)) (z : ℚ)
    (exon : String) : Option ℕ × ℚ :=
  match ths.lookup exon with
  | none => (none, 0)
  | some cfg =>
      let r := estimateCopyNumber cfg.copy_number_mapping z
      (some r.1, r.2)

/-- The five-bucket default mapping shape used by
`_initialize_default_thresholds` (boundaries `a < b < c < d`). -/
def defaultBuckets (a b c d : ℚ) : List (ℕ × CNBucket) :=
  [ (0, ⟨none, some a⟩), (1, ⟨some a, some b⟩), (2, ⟨some b, some c⟩),
    (3, ⟨some c, some d⟩), (4, ⟨some d, none⟩) ]

/-- `SMACopyNumberCaller._initialize_default_thresholds`. -/
def smaDefaultThresholds : List (String × ExonThresholdConfig) :=
  [ ("SMN1_exon7", ⟨-3/2, 3/2, defaultBuckets (-2) (-1/2) (1/2) 2⟩),
    ("SMN1_exon8", ⟨-3/2, 3/2, defaultBuckets (-2) (-1/2) (1/2) 2⟩),
    ("SMN2_exon7", ⟨-9/5, 9/5, defaultBuckets (-5/2) (-4/5) (4/5) (5/2)⟩),
    ("SMN2_exon8", ⟨-9/5, 9/5, defaultBuckets (-5/2) (-4/5) (4/5) (5/2)⟩) ]

/-- Modelled from the spec: the interval-table representation of a
`ThresholdSet` ("half-open intervals `z_min ≤ z < z_max` per bucket, with the
extreme buckets open-ended at ±∞"), used to compare the production caller's
lookup with the optimizer's threshold chain.  The source never materializes
this conversion; it is the refinement map the spec asserts. -/
def intervalTableOf (t : ThresholdSet) : List (ℕ × CNBucket) :=
  [ (0, ⟨none, some t.homozygous_deletion⟩),
    (1, ⟨some t.homozygous_deletion, some t.heterozygous_deletion⟩),
    (2, ⟨some t.normal_lower, some t.normal_upper⟩),
    (3, ⟨some t.normal_upper, some t.heterozygous_duplication⟩),
    (4, ⟨some t.heterozygous_duplication, none⟩) ]

lemma tableCN_lt_hd {t : ThresholdSet} {z : ℚ} (h : z < t.homozygous_deletion) :
    (estimateCopyNumber (intervalTableOf t) z).1 = 0 := by
  simp [estimateCopyNumber, intervalTableOf, List.find?, inBucket, h]

lemma tableCN_b1 {t : ThresholdSet} {z : ℚ} (h0 : t.homozygous_deletion ≤ z)
    (h1 : z < t.heterozygous_deletion) :
    (estimateCopyNumber (intervalTableOf t) z).1 = 1 := by
  simp [estimateCopyNumber, intervalTableOf, List.find?, inBucket,
    not_lt.mpr h0, h0, h1]

lemma tableCN_b2 {t : ThresholdSet} {z : ℚ} (h0 : ¬ z < t.homozygous_deletion)
    (h1 : ¬ z < t.heterozygous_deletion) (h2 : t.normal_lower ≤ z)
    (h3 : z < t.normal_upper) :
    (estimateCopyNumber (intervalTableOf t) z).1 = 2 := by
  simp [estimateCopyNumber, intervalTableOf, List.find?, inBucket,
    h0, h1, h2, h3]

lemma tableCN_b3 {t : ThresholdSet} {z : ℚ} (h0 : ¬ z < t.homozygous_deletion)
    (h1 : ¬ z < t.heterozygous_deletion) (h2 : t.normal_upper ≤ z)
    (h3 : z < t.heterozygous_duplication) :
    (estimateCopyNumber (intervalTableOf t) z).1 = 3 := by
  simp [estimateCopyNumber, intervalTableOf, List.find?, inBucket,
    h0, h1, not_lt.mpr h2, h2, h3]

lemma tableCN_b4 {t : ThresholdSet} {z : ℚ} (h0 : ¬ z < t.homozygous_deletion)
    (h1 : ¬ z < t.heterozygous_deletion) (h2 : ¬ z < t.normal_upper)
    (h3 : ¬ z < t.heterozygous_duplication)
    (h4 : t.heterozygous_duplication ≤ z) :
    (estimateCopyNumber (intervalTableOf t) z).1 = 4 := by
  simp [estimateCopyNumber, intervalTableOf, List.find?, inBucket,
    h0, h1, h2, h3, h4]

/-- C2 counterexample: at the exact boundary `z = normal_upper` the chain rule
(closed upper bounds) and the spec's half-open interval table disagree on the
default threshold set, which satisfies the ordering invariant: the chain gives
copy number 2, the table lookup gives 3. -/
theorem intervalTable_chain_boundary_mismatch :
    validThresholds defaultThresholds ∧
    zScoreToCopyNumber (3/2) defaultThresholds = 2 ∧
    (estimateCopyNumber (intervalTableOf defaultThresholds) (3/2)).1 = 3 := by
  refine ⟨by norm_num [validThresholds, defaultThresholds], ?_, ?_⟩
  · exact zcn_of_normal (by norm_num [defaultThresholds])
      (by norm_num [defaultThresholds])
      ⟨by norm_num [defaultThresholds], by norm_num [defaultThresholds]⟩
  · exact tableCN_b3 (by norm_num [defaultThresholds])
      (by norm_num [defaultThresholds]) (by norm_num [defaultThresholds])
      (by norm_num [defaultThresholds])

/-- C2 amended: for a valid threshold set whose interval table is contiguous
(`heterozygous_deletion = normal_lower`, `normal_upper <
heterozygous_duplication`), the interval-table lookup agrees with the
threshold-chain rule at every `z` that is not one of the four finite boundary
values; at each boundary value the half-open table returns exactly the
next-higher copy number (chain value + 1). -/
theorem intervalTable_chain_agree_off_boundaries (t : ThresholdSet) (z : ℚ)
    (h : validThresholds t) (heq : t.heterozygous_deletion = t.normal_lower)
    (hlt : t.normal_upper < t.heterozygous_duplication) :
    (z ≠ t.homozygous_deletion ∧ z ≠ t.normal_lower ∧ z ≠ t.normal_upper ∧
        z ≠ t.heterozygous_duplication →
      (estimateCopyNumber (intervalTableOf t) z).1 = zScoreToCopyNumber z t) ∧
    (z = t.homozygous_deletion ∨ z = t.normal_lower ∨ z = t.normal_upper ∨
        z = t.heterozygous_duplication →
      (estimateCopyNumber (intervalTableOf t) z).1 =
        zScoreToCopyNumber z t + 1) := by
  obtain ⟨i1, i2, i3, i4, i5⟩ := h
  rcases lt_trichotomy z t.homozygous_deletion with hA | hA | hA
  · constructor
    · intro _
      rw [tableCN_lt_hd hA, zcn_of_le_hd (le_of_lt hA)]
    · rintro (hb | hb | hb | hb) <;> subst hb <;> linarith
  · constructor
    · rintro ⟨hne, -, -, -⟩; exact absurd hA hne
    · intro _
      rw [tableCN_b1 (le_of_eq hA.symm) (by linarith), zcn_of_le_hd (le_of_eq hA)]
  · rcases lt_trichotomy z t.heterozygous_deletion with hB | hB | hB
    · constructor
      · intro _
        rw [tableCN_b1 (le_of_lt hA) hB,
          zcn_of_le_het (not_le.mpr hA) (le_of_lt hB)]
      · rintro (hb | hb | hb | hb) <;> subst hb <;> linarith
    · constructor
      · rintro ⟨-, hne, -, -⟩
        exact absurd (hB.trans heq) hne
      · intro _
        rw [tableCN_b2 (not_lt.mpr (le_of_lt hA)) (by linarith)
            (by linarith) (by linarith),
          zcn_of_le_het (not_le.mpr hA) (le_of_eq hB)]
    · rcases lt_trichotomy z t.normal_upper with hC | hC | hC
      · constructor
        · intro _
          rw [tableCN_b2 (not_lt.mpr (le_of_lt hA)) (not_lt.mpr (le_of_lt hB))
              (by linarith) hC,
            zcn_of_normal (not_le.mpr hA) (not_le.mpr hB)
              ⟨by linarith, le_of_lt hC⟩]
        · rintro (hb | hb | hb | hb) <;> subst hb <;> linarith
      · constructor
        · rintro ⟨-, -, hne, -⟩; exact absurd hC hne
        · intro _
          rw [tableCN_b3 (not_lt.mpr (le_of_lt hA)) (not_lt.mpr (le_of_lt hB))
              (le_of_eq hC.symm) (by linarith),
            zcn_of_normal (not_le.mpr hA) (not_le.mpr hB)
              ⟨by linarith, le_of_eq hC⟩]
      · rcases lt_trichotomy z t.heterozygous_duplication with hD | hD | hD
        · constructor
          · intro _
            rw [tableCN_b3 (not_lt.mpr (le_of_lt hA)) (not_lt.mpr (le_of_lt hB))
                (le_of_lt hC) hD,
              zcn_of_het_dup (not_le.mpr hA) (not_le.mpr hB)
                (fun hc => absurd hc.2 (not_le.mpr hC)) (le_of_lt hD)]
          · rintro (hb | hb | hb | hb) <;> subst hb <;> linarith
        · constructor
          · rintro ⟨-, -, -, hne⟩; exact absurd hD hne
          · intro _
            rw [tableCN_b4 (not_lt.mpr (le_of_lt hA)) (not_lt.mpr (le_of_lt hB))
                (not_lt.mpr (le_of_lt hC)) (by linarith) (le_of_eq hD.symm),
              zcn_of_het_dup (not_le.mpr hA) (not_le.mpr hB)
                (fun hc => absurd hc.2 (not_le.mpr hC)) (le_of_eq hD)]
        · constructor
          · intro _
            rw [tableCN_b4 (not_lt.mpr (le_of_lt hA)) (not_lt.mpr (le_of_lt hB))
                (not_lt.mpr (le_of_lt hC)) (not_lt.mpr (le_of_lt hD))
                (le_of_lt hD),
              zcn_of_top (not_le.mpr hA) (not_le.mpr hB)
                (fun hc => absurd hc.2 (not_le.mpr hC)) (not_le.mpr hD)]
          · rintro (hb | hb | hb | hb) <;> subst hb <;> linarith

/-- Witness for the amended C2: on the (contiguous, valid) default threshold
set at the non-boundary point `z = 0`, the table lookup equals the chain. -/
theorem intervalTable_chain_agree_off_boundaries_witness :
    (estimateCopyNumber (intervalTableOf defaultThresholds) 0).1 =
      zScoreToCopyNumber 0 defaultThresholds :=
  (intervalTable_chain_agree_off_boundaries defaultThresholds 0
      (by norm_num [validThresholds, defaultThresholds])
      (by norm_num [defaultThresholds]) (by norm_num [defaultThresholds])).1
    (by norm_num [defaultThresholds])

lemma clamp_bounds (x : ℚ) : 1/10 ≤ max (1/10) (min 1 x) ∧ max (1/10) (min 1 x) ≤ 1 :=
  ⟨le_max_left _ _, max_le (by norm_num) (min_le_left _ _)⟩

lemma calculateConfidence_bounds (z : ℚ) (b : CNBucket) :
    1/10 ≤ calculateConfidence z b ∧ calculateConfidence z b ≤ 1 := by
  rcases b with ⟨lo, hi⟩
  cases hi <;> cases lo
  · show (1:ℚ)/10 ≤ 1 ∧ (1:ℚ) ≤ 1
    exact ⟨by norm_num, le_refl 1⟩
  · exact clamp_bounds _
  · exact clamp_bounds _
  · exact clamp_bounds _

lemma estimateCopyNumber_conf_bounds (mapping : List (ℕ × CNBucket)) (z : ℚ) :
    1/10 ≤ (estimateCopyNumber mapping z).2 ∧
      (estimateCopyNumber mapping z).2 ≤ 1 := by
  unfold estimateCopyNumber
  cases hf : mapping.find? (fun p => inBucket z p.2) with
  | none => exact ⟨by norm_num, by norm_num⟩
  | some p => exact calculateConfidence_bounds z p.2

/-- C4: whenever the exon is present in the loaded threshold table, the
confidence returned by the caller lies in `[0.1, 1.0]` and is never `0` —
this covers the bounded-interval branch, both unbounded branches, and the
defensive out-of-coverage fallback (confidence `0.5`). -/
theorem callerEstimate_confidence_in_range
    (ths : List (String × ExonThresholdConfig)) (z : ℚ) (exon : String)
    (cfg : ExonThresholdConfig) (hfound : ths.lookup exon = some cfg) :
    1/10 ≤ (callerEstimate ths z exon).2 ∧ (callerEstimate ths z exon).2 ≤ 1 ∧
      (callerEstimate ths z exon).2 ≠ 0 := by
  unfold callerEstimate
  rw [hfound]
  have h := estimateCopyNumber_conf_bounds cfg.copy_number_mapping z
  exact ⟨h.1, h.2, ne_of_gt (lt_of_lt_of_le (by norm_num) h.1)⟩

/-- Witness for C4: the default SMN1 exon-7 table at `z = 0`. -/
theorem callerEstimate_confidence_in_range_witness :
    1/10 ≤ (callerEstimate smaDefaultThresholds 0 "SMN1_exon7").2 ∧
      (callerEstimate smaDefaultThresholds 0 "SMN1_exon7").2 ≤ 1 ∧
      (callerEstimate smaDefaultThresholds 0 "SMN1_exon7").2 ≠ 0 :=
  callerEstimate_confidence_in_range smaDefaultThresholds 0 "SMN1_exon7"
    ⟨-3/2, 3/2, defaultBuckets (-2) (-1/2) (1/2) 2⟩
    (by simp [smaDefaultThresholds, List.lookup])

/-- C10: calling the estimator with an exon key absent from the loaded
threshold table returns copy number `none` with confidence `0.0`, which is
strictly below the documented `0.1` floor; no error and no z-based fallback
is involved. -/
theorem callerEstimate_missing_exon_returns_none
    (ths : List (String × ExonThresholdConfig)) (z : ℚ) (exon : String)
    (h : ths.lookup exon = none) :
    callerEstimate ths z exon = (none, 0) ∧ (0:ℚ) < 1/10 := by
  unfold callerEstimate
  rw [h]
  exact ⟨rfl, by norm_num⟩

/-- Witness for C10: `SMN1_exon9` is not a key of the default table. -/
theorem callerEstimate_missing_exon_returns_none_witness :
    callerEstimate smaDefaultThresholds 0 "SMN1_exon9" = (none, 0) ∧
      (0:ℚ) < 1/10 :=
  callerEstimate_missing_exon_returns_none smaDefaultThresholds 0 "SMN1_exon9"
    (by simp [smaDefaultThresholds, List.lookup])

/-- The running best of `MLPAThresholdManager._grid_search_thresholds`: the
Python loop keeps `(best_mcc, best_thresholds)` and replaces it only when a
candidate's score is strictly greater (`if mcc > best_mcc`); candidates whose
score is not computed (the skipped degenerate ones) leave it unchanged. -/
def selectBest (eval : ThresholdSet → Option ℚ) :
    ℚ × ThresholdSet → List ThresholdSet → ℚ × ThresholdSet
  | acc, [] => acc
  | acc, c :: rest =>
      match eval c with
      | some m => if acc.1 < m then selectBest eval (m, c) rest else selectBest eval acc rest
      | none => selectBest eval acc rest

lemma selectBest_cons_none {eval : ThresholdSet → Option ℚ}
    {acc : ℚ × ThresholdSet} {c : ThresholdSet} {rest : List ThresholdSet}
    (h : eval c = none) :
    selectBest eval acc (c :: rest) = selectBest eval acc rest := by
  show (match eval c with
    | some m => if acc.1 < m then selectBest eval (m, c) rest
        else selectBest eval acc rest
    | none => selectBest eval acc rest) = selectBest eval acc rest
  rw [h]

lemma selectBest_cons_some {eval : ThresholdSet → Option ℚ}
    {acc : ℚ × ThresholdSet} {c : ThresholdSet} {rest : List ThresholdSet}
    {m : ℚ} (h : eval c = some m) :
    selectBest eval acc (c :: rest) =
      if acc.1 < m then selectBest eval (m, c) rest
      else selectBest eval acc rest := by
  show (match eval c with
    | some m => if acc.1 < m then selectBest eval (m, c) rest
        else selectBest eval acc rest
    | none => selectBest eval acc rest) = _
  rw [h]

/-- `np.arange(lo, hi, step)` for positive `step`: the values
`lo, lo + step, …`, strictly below `hi` (`⌈(hi - lo)/step⌉` of them). -/
def arangeQ (lo hi step : ℚ) : List ℚ :=
  (List.range (⌈(hi - lo) / step⌉.toNat)).map (fun k : ℕ => lo + (k : ℚ) * step)

/-- The candidate enumeration of `_grid_search_thresholds`, in the canonical
nested ascending order of the source's four loops; `normal_lower` is tied to
`-normal_upper` and `homozygous_duplication` to `heterozygous_duplication + 1`
exactly as the loop body builds `test_thresholds`. -/
def gridCandidates : List ThresholdSet :=
  (arangeQ (-7/2) (-3/2) (1/4)).flatMap fun hd =>
    (arangeQ (-2) (-1/2) (1/4)).flatMap fun hetDel =>
      (arangeQ 1 (5/2) (1/4)).flatMap fun nUp =>
        (arangeQ 2 (7/2) (1/4)).map fun hetDup =>
          { homozygous_deletion := hd
            heterozygous_deletion := hetDel
            normal_lower := -nUp
            normal_upper := nUp
            heterozygous_duplication := hetDup
            homozygous_duplication := hetDup + 1 }

/-- `_grid_search_thresholds`: fold the strict-improvement update over the
canonical candidate order, starting from `best_mcc = -1` and the current
thresholds.  The per-candidate MCC evaluation (`matthews_corrcoef` together
with the degenerate-candidate skip) is abstracted as `eval`, returning `none`
for skipped candidates. -/
def gridSearchThresholds (eval : ThresholdSet → Option ℚ)
    (current : ThresholdSet) : ℚ × ThresholdSet :=
  selectBest eval (-1, current) gridCandidates

lemma selectBest_spec (eval : ThresholdSet → Option ℚ) :
    ∀ (cands : List ThresholdSet) (acc : ℚ × ThresholdSet),
      acc.1 ≤ (selectBest eval acc cands).1 ∧
      (∀ c ∈ cands, ∀ s, eval c = some s → s ≤ (selectBest eval acc cands).1) ∧
      (selectBest eval acc cands = acc ∨
        ∃ pre post,
          cands = pre ++ (selectBest eval acc cands).2 :: post ∧
          eval (selectBest eval acc cands).2 = some (selectBest eval acc cands).1 ∧
          acc.1 < (selectBest eval acc cands).1 ∧
          ∀ c ∈ pre, ∀ s, eval c = some s → s < (selectBest eval acc cands).1) := by
  intro cands
  induction cands with
  | nil =>
      intro acc
      refine ⟨le_refl _, ?_, Or.inl rfl⟩
      intro c hc
      simp at hc
  | cons c rest ih =>
      intro acc
      cases heval : eval c with
      | none =>
          have hsb : selectBest eval acc (c :: rest) = selectBest eval acc rest := by
            rw [selectBest_cons_none heval]
          obtain ⟨h1, h2, h3⟩ := ih acc
          rw [hsb]
          refine ⟨h1, ?_, ?_⟩
          · intro x hx s hs
            rcases List.mem_cons.mp hx with rfl | hx
            · rw [heval] at hs; exact absurd hs (by simp)
            · exact h2 x hx s hs
          · rcases h3 with h3 | ⟨pre, post, hsplit, hev, hlt, hpre⟩
            · exact Or.inl h3
            · refine Or.inr ⟨c :: pre, post, by rw [List.cons_append]; exact congrArg (fun l => c :: l) hsplit, hev, hlt, ?_⟩
              intro x hx s hs
              rcases List.mem_cons.mp hx with rfl | hx
              · rw [heval] at hs; exact absurd hs (by simp)
              · exact hpre x hx s hs
      | some m =>
          by_cases hcmp : acc.1 < m
          · have hsb : selectBest eval acc (c :: rest) = selectBest eval (m, c) rest := by
              rw [selectBest_cons_some heval, if_pos hcmp]
            obtain ⟨h1, h2, h3⟩ := ih (m, c)
            rw [hsb]
            refine ⟨le_of_lt (lt_of_lt_of_le hcmp h1), ?_, ?_⟩
            · intro x hx s hs
              rcases List.mem_cons.mp hx with rfl | hx
              · rw [heval] at hs
                injection hs with hms
                subst hms
                exact h1
              · exact h2 x hx s hs
            · rcases h3 with h3 | ⟨pre, post, hsplit, hev, hlt, hpre⟩
              · refine Or.inr ⟨[], rest, by simp [h3], ?_, ?_, ?_⟩
                · rw [h3]; exact heval
                · rw [h3]; exact hcmp
                · intro x hx; simp at hx
              · refine Or.inr ⟨c :: pre, post, by rw [List.cons_append]; exact congrArg (fun l => c :: l) hsplit, hev,
                  lt_trans hcmp hlt, ?_⟩
                intro x hx s hs
                rcases List.mem_cons.mp hx with rfl | hx
                · rw [heval] at hs
                  injection hs with hms
                  subst hms
                  exact hlt
                · exact hpre x hx s hs
          · have hsb : selectBest eval acc (c :: rest) = selectBest eval acc rest := by
              rw [selectBest_cons_some heval, if_neg hcmp]
            obtain ⟨h1, h2, h3⟩ := ih acc
            rw [hsb]
            refine ⟨h1, ?_, ?_⟩
            · intro x hx s hs
              rcases List.mem_cons.mp hx with rfl | hx
              · rw [heval] at hs
                injection hs with hms
                subst hms
                exact le_trans (not_lt.mp hcmp) h1
              · exact h2 x hx s hs
            · rcases h3 with h3 | ⟨pre, post, hsplit, hev, hlt, hpre⟩
              · exact Or.inl h3
              · refine Or.inr ⟨c :: pre, post, by rw [List.cons_append]; exact congrArg (fun l => c :: l) hsplit, hev, hlt, ?_⟩
                intro x hx s hs
                rcases List.mem_cons.mp hx with rfl | hx
                · rw [heval] at hs
                  injection hs with hms
                  subst hms
                  exact lt_of_le_of_lt (not_lt.mp hcmp) hlt
                · exact hpre x hx s hs

lemma selectBest_of_forall_le (eval : ThresholdSet → Option ℚ) :
    ∀ (cands : List ThresholdSet) (acc : ℚ × ThresholdSet),
      (∀ c ∈ cands, ∀ s, eval c = some s → s ≤ acc.1) →
      selectBest eval acc cands = acc := by
  intro cands
  induction cands with
  | nil => intro acc _; rfl
  | cons c rest ih =>
      intro acc h
      cases heval : eval c with
      | none =>
          have : selectBest eval acc (c :: rest) = selectBest eval acc rest := by
            rw [selectBest_cons_none heval]
          rw [this]
          exact ih acc (fun x hx s hs => h x (List.mem_cons_of_mem _ hx) s hs)
      | some m =>
          have hle : m ≤ acc.1 := h c (List.mem_cons_self _ _) m heval
          have : selectBest eval acc (c :: rest) = selectBest eval acc rest := by
            rw [selectBest_cons_some heval, if_neg (not_lt.mpr hle)]
          rw [this]
          exact ih acc (fun x hx s hs => h x (List.mem_cons_of_mem _ hx) s hs)

lemma selectBest_none (eval : ThresholdSet → Option ℚ)
    (cands : List ThresholdSet) (acc : ℚ × ThresholdSet)
    (h : ∀ c ∈ cands, eval c = none) : selectBest eval acc cands = acc :=
  selectBest_of_forall_le eval cands acc
    (fun c hc s hs => absurd (h c hc ▸ hs) (by simp))

lemma selectBest_single_support (eval : ThresholdSet → Option ℚ)
    (target : ThresholdSet) (m : ℚ) (hev : eval target = some m)
    (hothers : ∀ c, c ≠ target → eval c = none) :
    ∀ (cands : List ThresholdSet) (acc : ℚ × ThresholdSet),
      target ∈ cands → acc.1 < m → selectBest eval acc cands = (m, target) := by
  intro cands
  induction cands with
  | nil => intro acc h; simp at h
  | cons c rest ih =>
      intro acc hmem hlt
      by_cases hc : c = target
      · subst hc
        have hstep : selectBest eval acc (c :: rest) = selectBest eval (m, c) rest := by
          rw [selectBest_cons_some hev, if_pos hlt]
        rw [hstep]
        apply selectBest_of_forall_le
        intro x hx s hs
        by_cases hx' : x = c
        · subst hx'
          rw [hev] at hs
          injection hs with hms
          subst hms
          exact le_refl _
        · rw [hothers x hx'] at hs
          exact absurd hs (by simp)
      · have hmem' : target ∈ rest := by
          rcases List.mem_cons.mp hmem with h | h
          · exact absurd h.symm hc
          · exact h
        have hstep : selectBest eval acc (c :: rest) = selectBest eval acc rest :=
          selectBest_cons_none (hothers c hc)
        rw [hstep]
        exact ih acc hmem' hlt

/-- C3: the grid search replaces the incumbent only on a strictly greater
score, so the final winner is either the untouched initial pair
`(-1, current)` or a candidate whose score bounds every candidate's score
from above while every candidate visited *earlier* in the canonical nested
order scores strictly less — in particular an equal-scoring later candidate
never displaces it. -/
theorem gridSearch_strict_improvement_earliest_tie
    (eval : ThresholdSet → Option ℚ) (current : ThresholdSet) (m : ℚ)
    (b : ThresholdSet) (hres : gridSearchThresholds eval current = (m, b)) :
    (∀ c ∈ gridCandidates, ∀ s, eval c = some s → s ≤ m) ∧
    ((m, b) = (-1, current) ∨
      ∃ pre post, gridCandidates = pre ++ b :: post ∧ eval b = some m ∧
        -1 < m ∧ ∀ c ∈ pre, ∀ s, eval c = some s → s < m) := by
  have h := selectBest_spec eval gridCandidates (-1, current)
  unfold gridSearchThresholds at hres
  rw [hres] at h
  exact ⟨h.2.1, h.2.2⟩

/-- Witness for C3: with every candidate's score missing (all skipped), the
grid search returns the initial `(-1, current)` pair and the characterization
holds concretely. -/
theorem gridSearch_strict_improvement_earliest_tie_witness :
    (∀ c ∈ gridCandidates, ∀ s : ℚ, (none : Option ℚ) = some s → s ≤ -1) ∧
    (((-1 : ℚ), defaultThresholds) = (-1, defaultThresholds) ∨
      ∃ pre post, gridCandidates = pre ++ defaultThresholds :: post ∧
        (none : Option ℚ) = some (-1) ∧ (-1 : ℚ) < -1 ∧
        ∀ c ∈ pre, ∀ s : ℚ, (none : Option ℚ) = some s → s < -1) :=
  gridSearch_strict_improvement_earliest_tie (fun _ => none) defaultThresholds
    (-1) defaultThresholds
    (selectBest_none (fun _ => none) gridCandidates (-1, defaultThresholds)
      (fun _ _ => rfl))

lemma mem_arangeQ_of (lo hi step : ℚ) (k : ℕ)
    (hk : k < (⌈(hi - lo) / step⌉).toNat) :
    lo + k * step ∈ arangeQ lo hi step := by
  unfold arangeQ
  exact List.mem_map.mpr ⟨k, List.mem_range.mpr hk, rfl⟩

lemma of_mem_arangeQ {lo hi step x : ℚ} (h : x ∈ arangeQ lo hi step) :
    ∃ k : ℕ, x = lo + k * step := by
  unfold arangeQ at h
  obtain ⟨k, -, hx⟩ := List.mem_map.mp h
  exact ⟨k, hx.symm⟩

lemma mem_gridCandidates_of {hd hetDel nUp hetDup : ℚ}
    (h1 : hd ∈ arangeQ (-7/2) (-3/2) (1/4))
    (h2 : hetDel ∈ arangeQ (-2) (-1/2) (1/4))
    (h3 : nUp ∈ arangeQ 1 (5/2) (1/4))
    (h4 : hetDup ∈ arangeQ 2 (7/2) (1/4)) :
    ({ homozygous_deletion := hd
       heterozygous_deletion := hetDel
       normal_lower := -nUp
       normal_upper := nUp
       heterozygous_duplication := hetDup
       homozygous_duplication := hetDup + 1 } : ThresholdSet) ∈ gridCandidates := by
  unfold gridCandidates
  refine List.mem_flatMap.mpr ⟨hd, h1, ?_⟩
  refine List.mem_flatMap.mpr ⟨hetDel, h2, ?_⟩
  refine List.mem_flatMap.mpr ⟨nUp, h3, ?_⟩
  exact List.mem_map.mpr ⟨hetDup, h4, rfl⟩

/-- The grid candidate with `homozygous_deletion = -1.75` (the top of its
search range) and `heterozygous_deletion = -2.0` (the bottom of its range),
`normal half-width 1.0` and `heterozygous_duplication = 2.0`: its deletion
boundaries are out of order. -/
def invalidGridWinner : ThresholdSet :=
  { homozygous_deletion := -7/4
    heterozygous_deletion := -2
    normal_lower := -1
    normal_upper := 1
    heterozygous_duplication := 2
    homozygous_duplication := 3 }

/-- A score assignment under which only `invalidGridWinner` receives an MCC
(realizable by labelling the training data exactly as that candidate
classifies it, which no candidate with a lower `homozygous_deletion`
reproduces). -/
def invalidWinnerEval (t : ThresholdSet) : Option ℚ :=
  if t = invalidGridWinner then some 1 else none

lemma invalidGridWinner_mem : invalidGridWinner ∈ gridCandidates := by
  have h1 : (-7/4 : ℚ) ∈ arangeQ (-7/2) (-3/2) (1/4) := by
    have h := mem_arangeQ_of (-7/2) (-3/2) (1/4) 7 (by norm_num)
    norm_num at h ⊢
    exact h
  have h2 : (-2 : ℚ) ∈ arangeQ (-2) (-1/2) (1/4) := by
    have h := mem_arangeQ_of (-2) (-1/2) (1/4) 0 (by norm_num)
    norm_num at h ⊢
    exact h
  have h3 : (1 : ℚ) ∈ arangeQ 1 (5/2) (1/4) := by
    have h := mem_arangeQ_of 1 (5/2) (1/4) 0 (by norm_num)
    norm_num at h ⊢
    exact h
  have h4 : (2 : ℚ) ∈ arangeQ 2 (7/2) (1/4) := by
    have h := mem_arangeQ_of 2 (7/2) (1/4) 0 (by norm_num)
    norm_num at h ⊢
    exact h
  have hmem := mem_gridCandidates_of h1 h2 h3 h4
  have heq : ({ homozygous_deletion := -7/4
                heterozygous_deletion := -2
                normal_lower := -(1:ℚ)
                normal_upper := 1
                heterozygous_duplication := 2
                homozygous_duplication := 2 + 1 } : ThresholdSet) =
      invalidGridWinner := by
    unfold invalidGridWinner
    norm_num
  rw [heq] at hmem
  exact hmem

/-- C7 counterexample: the grid search can return (and hence save) a
candidate violating the ordering invariant.  Under a score assignment that
ranks only `invalidGridWinner`, the search — started from the valid default
set — returns that candidate, whose `homozygous_deletion` is *not* below its
`heterozygous_deletion`. -/
theorem gridSearch_winner_can_violate_invariant :
    gridSearchThresholds invalidWinnerEval defaultThresholds =
      (1, invalidGridWinner) ∧
    ¬ validThresholds invalidGridWinner ∧ validThresholds defaultThresholds := by
  refine ⟨?_, ?_, by norm_num [validThresholds, defaultThresholds]⟩
  · unfold gridSearchThresholds
    apply selectBest_single_support invalidWinnerEval invalidGridWinner 1
      (by simp [invalidWinnerEval]) (fun c hc => by simp [invalidWinnerEval, hc])
      gridCandidates (-1, defaultThresholds) invalidGridWinner_mem
    norm_num
  · intro hcontra
    obtain ⟨hbad, -, -, -, -⟩ := hcontra
    norm_num [invalidGridWinner] at hbad

/-- C7 amended: the initial defaults satisfy the full ordering invariant, and
every grid candidate (hence every winner other than a retained incumbent)
satisfies the derived parts of the invariant —
`normal_lower = -normal_upper < normal_upper` and
`heterozygous_duplication < homozygous_duplication = heterozygous_duplication
+ 1` — but, as the counterexample shows, the remaining orderings
(`homozygous_deletion < heterozygous_deletion ≤ normal_lower`,
`normal_upper ≤ heterozygous_duplication`) are not guaranteed for winners. -/
theorem gridCandidates_partial_invariant (c : ThresholdSet)
    (hc : c ∈ gridCandidates) :
    validThresholds defaultThresholds ∧
    c.normal_lower = -c.normal_upper ∧ c.normal_lower < c.normal_upper ∧
    c.homozygous_duplication = c.heterozygous_duplication + 1 ∧
    c.heterozygous_duplication < c.homozygous_duplication := by
  refine ⟨by norm_num [validThresholds, defaultThresholds], ?_⟩
  unfold gridCandidates at hc
  obtain ⟨hd, -, hc⟩ := List.mem_flatMap.mp hc
  obtain ⟨hetDel, -, hc⟩ := List.mem_flatMap.mp hc
  obtain ⟨nUp, hnu, hc⟩ := List.mem_flatMap.mp hc
  obtain ⟨hetDup, -, hceq⟩ := List.mem_map.mp hc
  obtain ⟨k, hk⟩ := of_mem_arangeQ hnu
  subst hceq
  have hpos : (0:ℚ) < nUp := by
    rw [hk]
    positivity
  exact ⟨rfl, by simpa using hpos, rfl, by norm_num⟩

/-- Witness for the amended C7: the first candidate of the canonical grid. -/
theorem gridCandidates_partial_invariant_witness :
    validThresholds defaultThresholds ∧
    invalidGridWinner.normal_lower = -invalidGridWinner.normal_upper ∧
    invalidGridWinner.normal_lower < invalidGridWinner.normal_upper ∧
    invalidGridWinner.homozygous_duplication =
      invalidGridWinner.heterozygous_duplication + 1 ∧
    invalidGridWinner.heterozygous_duplication <
      invalidGridWinner.homozygous_duplication :=
  gridCandidates_partial_invariant invalidGridWinner invalidGridWinner_mem

/-- `set(depth_data['sample_id']) & set(mlpa_data['sample_id'])` from
`optimize_thresholds_with_mlpa`: the distinct sample ids shared by the depth
table and the MLPA table. -/
def commonSamples (depthIds mlpaIds : List String) : List String :=
  (depthIds.filter (fun s => mlpaIds.contains s)).dedup

/-- `MLPAThresholdManager.optimize_thresholds_with_mlpa`
(`mlpa_threshold_normalizer.py`): returns early — leaving the manager's
threshold state untouched — when the MLPA table is missing, the depth table
is empty, or fewer than 10 samples are shared; otherwise it runs the per-exon
optimization, abstracted here as `update`. -/
def optimizeThresholdsWithMlpa {M : Type} (update : M → M) (state : M)
    (mlpaPresent depthNonempty : Bool) (depthIds mlpaIds : List String) : M :=
  if !mlpaPresent || !depthNonempty then state
  else if (commonSamples depthIds mlpaIds).length < 10 then state
  else update state

/-- The per-candidate evaluation of `_grid_search_thresholds`
(`core_engine.py`): classify all observations with the candidate, and compute
an MCC only when both the predictions and the ground-truth labels take more
than one distinct value (`len(set(...)) > 1` twice); otherwise the candidate
is skipped.  `mcc` abstracts `sklearn.metrics.matthews_corrcoef`. -/
def gridEval (mcc : List ℕ → List ℕ → ℚ) (data : List (ℚ × ℕ))
    (t : ThresholdSet) : Option ℚ :=
  if 1 < (data.map (fun p => zScoreToCopyNumber p.1 t)).dedup.length ∧
      1 < (data.map Prod.snd).dedup.length then
    some (mcc (data.map Prod.snd) (data.map (fun p => zScoreToCopyNumber p.1 t)))
  else none

/-- C8: optimization is skipped and the current thresholds are retained
unchanged whenever fewer than 10 samples carry both a z-score and a
ground-truth label (normalizer path), or the ground-truth labels or every
candidate's predictions are constant so the MCC is undefined (grid-search
path: every candidate is skipped and the search returns the incumbent). -/
theorem optimization_skip_retains_thresholds {M : Type}
    (mcc : List ℕ → List ℕ → ℚ) (data : List (ℚ × ℕ)) (current : ThresholdSet)
    (update : M → M) (state : M) (mlpaPresent depthNonempty : Bool)
    (depthIds mlpaIds : List String)
    (hdeg : (data.map Prod.snd).dedup.length ≤ 1 ∨
      ∀ t : ThresholdSet,
        (data.map (fun p => zScoreToCopyNumber p.1 t)).dedup.length ≤ 1)
    (hfew : (commonSamples depthIds mlpaIds).length < 10) :
    gridSearchThresholds (gridEval mcc data) current = (-1, current) ∧
    optimizeThresholdsWithMlpa update state mlpaPresent depthNonempty
      depthIds mlpaIds = state := by
  constructor
  · unfold gridSearchThresholds
    apply selectBest_none
    intro c _
    unfold gridEval
    rcases hdeg with hdeg | hdeg
    · rw [if_neg]
      intro hcontra
      exact absurd hdeg (not_le.mpr hcontra.2)
    · rw [if_neg]
      intro hcontra
      exact absurd (hdeg c) (not_le.mpr hcontra.1)
  · unfold optimizeThresholdsWithMlpa
    cases mlpaPresent
    · rfl
    · cases depthNonempty
      · rfl
      · simp only [Bool.not_true, Bool.or_self, Bool.false_eq_true, if_false]
        rw [if_pos hfew]

/-- Witness for C8: empty data (constant, hence degenerate ground truth) and
no shared samples — the grid search returns the incumbent defaults and the
normalizer leaves its state (here `0`) unchanged. -/
theorem optimization_skip_retains_thresholds_witness :
    gridSearchThresholds (gridEval (fun _ _ => 0) []) defaultThresholds =
      (-1, defaultThresholds) ∧
    optimizeThresholdsWithMlpa Nat.succ 0 true true [] [] = 0 :=
  optimization_skip_retains_thresholds (fun _ _ => 0) [] defaultThresholds
    Nat.succ 0 true true [] [] (Or.inl (by simp))
    (by norm_num [commonSamples])

/-- The per-exon fields of `depth_extactor.ExonDepthResult` that the fallback
decision reads. -/
structure ExonDepthResult where
  mean_depth : ℚ
  reads_detected : Bool
deriving DecidableEq, Repr

/-- `SMNDepthExtractor.critical_exons`. -/
def criticalExons : List String :=
  ["SMN1_exon7", "SMN1_exon8", "SMN2_exon7", "SMN2_exon8"]

/-- An exon is problematic when it has no reads or its mean depth is below
10 (the spec's configurable minimum depth, fixed at 10 in the source). -/
def problematicB (r : ExonDepthResult) : Bool :=
  !r.reads_detected || decide (r.mean_depth < 10)

/-- `SMNDepthExtractor._assess_fallback_need`: count exons with no reads and
exons with reads but mean depth `< 10` (an `elif`, so no double counting),
divide by the number of critical exons, and activate fallback when the
fraction is `≥ 0.5`. -/
def assessFallbackNeed (primary : List (String × ExonDepthResult)) : Bool :=
  decide (((((primary.filter (fun p => !p.2.reads_detected)).length +
      (primary.filter
        (fun p => p.2.reads_detected && decide (p.2.mean_depth < 10))).length
      : ℕ) : ℚ) / (criticalExons.length : ℚ)) ≥ 1/2)

/-- A batch in which exactly 2 of the 4 critical exons are problematic. -/
def twoProblematicBatch : List (String × ExonDepthResult) :=
  [("SMN1_exon7", ⟨0, false⟩), ("SMN1_exon8", ⟨0, false⟩),
   ("SMN2_exon7", ⟨30, true⟩), ("SMN2_exon8", ⟨30, true⟩)]

/-- A batch in which exactly 1 of the 4 critical exons is problematic. -/
def oneProblematicBatch : List (String × ExonDepthResult) :=
  [("SMN1_exon7", ⟨0, false⟩), ("SMN1_exon8", ⟨30, true⟩),
   ("SMN2_exon7", ⟨30, true⟩), ("SMN2_exon8", ⟨30, true⟩)]

lemma problematic_count_split (l : List (String × ExonDepthResult)) :
    (l.filter (fun p => !p.2.reads_detected)).length +
      (l.filter
        (fun p => p.2.reads_detected && decide (p.2.mean_depth < 10))).length =
    (l.filter (fun p => problematicB p.2)).length := by
  induction l with
  | nil => rfl
  | cons x xs ih =>
      cases hb : x.2.reads_detected <;>
        cases hd : (decide (x.2.mean_depth < 10)) <;>
        simp [List.filter_cons, problematicB, hb, hd] at ih ⊢ <;>
        omega

/-- C5: fallback activates exactly when at least 2 of the 4 critical exons
are problematic (no reads, or mean depth below 10); in particular a batch
with exactly 2 problematic exons activates it and a batch with exactly 1
does not. -/
theorem fallback_iff_half_problematic :
    (∀ primary : List (String × ExonDepthResult),
      (assessFallbackNeed primary = true ↔
        2 ≤ (primary.filter (fun p => problematicB p.2)).length)) ∧
    assessFallbackNeed twoProblematicBatch = true ∧
    assessFallbackNeed oneProblematicBatch = false := by
  have hmain : ∀ primary : List (String × ExonDepthResult),
      (assessFallbackNeed primary = true ↔
        2 ≤ (primary.filter (fun p => problematicB p.2)).length) := by
    intro primary
    unfold assessFallbackNeed
    rw [decide_eq_true_iff, problematic_count_split]
    have h4 : ((criticalExons.length : ℕ) : ℚ) = 4 := by
      norm_num [criticalExons]
    rw [h4, ge_iff_le, le_div_iff₀ (by norm_num : (0:ℚ) < 4)]
    have h24 : ((1:ℚ)/2 * 4) = ((2:ℕ) : ℚ) := by norm_num
    rw [h24, Nat.cast_le]
  refine ⟨hmain, ?_, ?_⟩
  · rw [hmain twoProblematicBatch]
    have h30 : ¬ ((30:ℚ) < 10) := by norm_num
    simp [twoProblematicBatch, List.filter, problematicB, h30]
  · rw [Bool.eq_false_iff]
    intro hcontra
    rw [hmain oneProblematicBatch] at hcontra
    have h30 : ¬ ((30:ℚ) < 10) := by norm_num
    simp [oneProblematicBatch, List.filter, problematicB, h30] at hcontra

/-- One retained fallback-region evidence record
(`depth_extactor.FallbackRegion`, the fields the claims read). -/
structure FallbackRegion where
  region_id : String
  read_count : ℕ
  mean_depth : ℚ
deriving DecidableEq, Repr

/-- The keys of `SMNDepthExtractor.fallback_regions`. -/
def fallbackRegionIds : List String :=
  ["SMN1_upstream", "SMN1_downstream", "SMN1_intron7_8",
   "SMN2_upstream", "SMN2_downstream", "SMN2_intron7_8", "SMN_locus_control"]

/-- `any(not primary_results[e].reads_detected for e in [...] if e in
primary_results)` for the SMN1 exon pair. -/
def smn1NeedsFallback (primary : List (String × ExonDepthResult)) : Bool :=
  ["SMN1_exon7", "SMN1_exon8"].any (fun e =>
    match primary.lookup e with
    | some r => !r.reads_detected
    | none => false)

/-- The SMN2 counterpart of `smn1NeedsFallback`. -/
def smn2NeedsFallback (primary : List (String × ExonDepthResult)) : Bool :=
  ["SMN2_exon7", "SMN2_exon8"].any (fun e =>
    match primary.lookup e with
    | some r => !r.reads_detected
    | none => false)

/-- `regions_to_try` of `_perform_fallback_analysis`: gene-scoped auxiliary
regions plus the always-tried locus control region. -/
def regionsToTry (primary : List (String × ExonDepthResult)) : List String :=
  (if smn1NeedsFallback primary then
    ["SMN1_upstream", "SMN1_downstream", "SMN1_intron7_8"] else []) ++
  (if smn2NeedsFallback primary then
    ["SMN2_upstream", "SMN2_downstream", "SMN2_intron7_8"] else []) ++
  ["SMN_locus_control"]

/-- `_analyze_fallback_region` seen through its effect: the samtools oracle
`readData` yields `(read_count, mean_depth)` for a region, or `none` when the
subprocess fails (the `except` path, which skips the region); a region is
turned into evidence only when `read_count > 0`. -/
def analyzeRegion (readData : String → Option (ℕ × ℚ)) (rid : String) :
    Option FallbackRegion :=
  match readData rid with
  | some rc => if 0 < rc.1 then some ⟨rid, rc.1, rc.2⟩ else none
  | none => none

/-- `_perform_fallback_analysis`: try each region (when it is a key of the
region table), keeping only results with positive read count. -/
def performFallbackAnalysis (readData : String → Option (ℕ × ℚ))
    (primary : List (String × ExonDepthResult)) : List FallbackRegion :=
  (regionsToTry primary).filterMap (fun rid =>
    if fallbackRegionIds.contains rid then analyzeRegion readData rid
    else none)

/-- The fields of `depth_extactor.SMNSampleDepth` the claims read. -/
structure SMNSampleDepth where
  primary_exons : List (String × ExonDepthResult)
  fallback_regions : List FallbackRegion
  fallback_used : Bool
deriving Repr

/-- `SMNDepthExtractor.extract_sample_depth` after the per-exon extraction:
assess fallback need, run the fallback analysis when needed and enabled, and
record `fallback_used = len(fallback_results) > 0`. -/
def extractSampleDepth (enableFallback : Bool)
    (readData : String → Option (ℕ × ℚ))
    (primary : List (String × ExonDepthResult)) : SMNSampleDepth :=
  { primary_exons := primary
    fallback_regions :=
      if assessFallbackNeed primary && enableFallback then
        performFallbackAnalysis readData primary
      else []
    fallback_used :=
      decide (0 < (if assessFallbackNeed primary && enableFallback then
        performFallbackAnalysis readData primary else []).length) }

lemma analyzeRegion_pos {readData : String → Option (ℕ × ℚ)} {rid : String}
    {r : FallbackRegion} (h : analyzeRegion readData rid = some r) :
    0 < r.read_count := by
  unfold analyzeRegion at h
  cases hread : readData rid with
  | none =>
      rw [hread] at h
      simp at h
  | some rc =>
      rw [hread] at h
      change (if 0 < rc.1 then some ⟨rid, rc.1, rc.2⟩ else none) = some r at h
      by_cases hpos : 0 < rc.1
      · rw [if_pos hpos] at h
        injection h with he
        subst he
        exact hpos
      · rw [if_neg hpos] at h
        simp at h

/-- All four critical exons report no reads. -/
def allNoReadsPrimary : List (String × ExonDepthResult) :=
  [("SMN1_exon7", ⟨0, false⟩), ("SMN1_exon8", ⟨0, false⟩),
   ("SMN2_exon7", ⟨0, false⟩), ("SMN2_exon8", ⟨0, false⟩)]

/-- C6 counterexample: for a sample needing fallback where every auxiliary
region yields zero reads, the code records `fallback_used = False`
(`len(fallback_results) > 0` with an empty evidence list), not `True` as the
claim states. -/
theorem fallback_attempted_but_flag_false :
    assessFallbackNeed allNoReadsPrimary = true ∧
    (extractSampleDepth true (fun _ => some (0, 0))
      allNoReadsPrimary).fallback_used = false ∧
    (extractSampleDepth true (fun _ => some (0, 0))
      allNoReadsPrimary).fallback_regions = [] := by
  have hassess : assessFallbackNeed allNoReadsPrimary = true := by
    unfold assessFallbackNeed
    rw [decide_eq_true_iff]
    norm_num [allNoReadsPrimary, criticalExons, List.filter]
  have hperform : performFallbackAnalysis (fun _ => some (0, 0))
      allNoReadsPrimary = [] := by
    unfold performFallbackAnalysis
    apply List.filterMap_eq_nil_iff.mpr
    intro rid _
    by_cases hc : (fallbackRegionIds.contains rid) = true
    · rw [if_pos hc]
      rfl
    · rw [if_neg hc]
  have hcond : (assessFallbackNeed allNoReadsPrimary && true) = true := by
    rw [hassess]
    rfl
  refine ⟨hassess, ?_, ?_⟩
  · simp only [extractSampleDepth]
    rw [if_pos hcond, hperform]
    rfl
  · simp only [extractSampleDepth]
    rw [if_pos hcond, hperform]

/-- C6 amended: `fallback_used` is true exactly when the retained evidence
list is nonempty (so it is false when fallback was attempted but no auxiliary
region yielded reads), and every retained `FallbackRegion` has
`read_count > 0`. -/
theorem fallback_used_iff_evidence_nonempty (enableFallback : Bool)
    (readData : String → Option (ℕ × ℚ))
    (primary : List (String × ExonDepthResult)) :
    ((extractSampleDepth enableFallback readData primary).fallback_used = true ↔
      (extractSampleDepth enableFallback readData primary).fallback_regions ≠ []) ∧
    ∀ r ∈ (extractSampleDepth enableFallback readData primary).fallback_regions,
      0 < r.read_count := by
  constructor
  · simp only [extractSampleDepth]
    rw [decide_eq_true_iff]
    exact ⟨fun h => List.ne_nil_of_length_pos h, fun h => List.length_pos.mpr h⟩
  · intro r hr
    simp only [extractSampleDepth] at hr
    by_cases hif : (assessFallbackNeed primary && enableFallback) = true
    · rw [if_pos hif] at hr
      unfold performFallbackAnalysis at hr
      obtain ⟨rid, -, hmap⟩ := List.mem_filterMap.mp hr
      by_cases hc : (fallbackRegionIds.contains rid) = true
      · rw [if_pos hc] at hmap
        exact analyzeRegion_pos hmap
      · rw [if_neg hc] at hmap
        simp at hmap
    · rw [if_neg hif] at hr
      simp at hr

/-- Witness for the amended C6: fallback on the all-no-reads sample with an
oracle returning 3 reads everywhere. -/
theorem fallback_used_iff_evidence_nonempty_witness :
    ((extractSampleDepth true (fun _ => some (3, 5))
        allNoReadsPrimary).fallback_used = true ↔
      (extractSampleDepth true (fun _ => some (3, 5))
        allNoReadsPrimary).fallback_regions ≠ []) ∧
    ∀ r ∈ (extractSampleDepth true (fun _ => some (3, 5))
        allNoReadsPrimary).fallback_regions, 0 < r.read_count :=
  fallback_used_iff_evidence_nonempty true (fun _ => some (3, 5))
    allNoReadsPrimary

/-- One row of the per-exon depth column consumed by
`normalize_depth_data` (`mlpa_threshold_normalizer.py`). -/
structure DepthRow where
  sample_type : String
  depth : ℚ
deriving DecidableEq, Repr

/-- The reference cohort used for normalization: the `reference`-typed rows,
replaced by the whole batch when fewer than 3 exist. -/
def refSubset (batch : List DepthRow) : List DepthRow :=
  if (batch.filter (fun r => r.sample_type == "reference")).length < 3 then
    batch
  else batch.filter (fun r => r.sample_type == "reference")

/-- `pandas` column mean. -/
def meanQ (xs : List ℚ) : ℚ := xs.sum / (xs.length : ℚ)

/-- `normalize_depth_data` for one exon column.  `std` abstracts the pandas
sample standard deviation (`Series.std`, the square root of the
`ddof = 1` variance — an irrational real the guard only compares with 0);
the branch `if ref_std > 0 : z = (depth - ref_mean)/ref_std else z = 0` is
modelled verbatim. -/
def normalizeColumn (std : List ℚ → ℚ) (batch : List DepthRow) : List ℚ :=
  batch.map (fun r =>
    if 0 < std ((refSubset batch).map DepthRow.depth) then
      (r.depth - meanQ ((refSubset batch).map DepthRow.depth)) /
        std ((refSubset batch).map DepthRow.depth)
    else 0)

/-- C9: normalization statistics come from the reference subset alone when it
has at least 3 samples, and from the whole batch otherwise; when the
reference standard deviation is positive every sample's z-score is
`(depth - ref_mean)/ref_std`, and when it is zero every z-score is defined
as `0` — the division is guarded, so no division by zero occurs. -/
theorem normalization_ref_subset_and_zero_std (std : List ℚ → ℚ)
    (batch : List DepthRow) :
    (3 ≤ (batch.filter (fun r => r.sample_type == "reference")).length →
      refSubset batch = batch.filter (fun r => r.sample_type == "reference")) ∧
    ((batch.filter (fun r => r.sample_type == "reference")).length < 3 →
      refSubset batch = batch) ∧
    (0 < std ((refSubset batch).map DepthRow.depth) →
      normalizeColumn std batch = batch.map (fun r =>
        (r.depth - meanQ ((refSubset batch).map DepthRow.depth)) /
          std ((refSubset batch).map DepthRow.depth))) ∧
    (std ((refSubset batch).map DepthRow.depth) = 0 →
      ∀ z ∈ normalizeColumn std batch, z = 0) := by
  refine ⟨?_, ?_, ?_, ?_⟩
  · intro h
    unfold refSubset
    rw [if_neg (not_lt.mpr h)]
  · intro h
    unfold refSubset
    rw [if_pos h]
  · intro h
    simp only [normalizeColumn, if_pos h]
  · intro h z hz
    unfold normalizeColumn at hz
    obtain ⟨r, -, hr⟩ := List.mem_map.mp hz
    rw [← hr, if_neg (by rw [h]; exact lt_irrefl 0)]

/-- A two-row batch (one reference sample) with constant depth. -/
def constDepthBatch : List DepthRow := [⟨"reference", 30⟩, ⟨"test", 30⟩]

/-- Witness for C9: with fewer than 3 reference rows the whole batch is the
reference cohort, and with a zero standard deviation every z-score is 0. -/
theorem normalization_ref_subset_and_zero_std_witness :
    refSubset constDepthBatch = constDepthBatch ∧
    ∀ z ∈ normalizeColumn (fun _ => 0) constDepthBatch, z = 0 := by
  have h := normalization_ref_subset_and_zero_std (fun _ => 0) constDepthBatch
  exact ⟨h.2.1 (by simp [constDepthBatch]), h.2.2.2 rfl⟩

/-- Witness for C5: the 2-of-4 and 1-of-4 instances extracted concretely. -/
theorem fallback_iff_half_problematic_witness :
    assessFallbackNeed twoProblematicBatch = true ∧
    assessFallbackNeed oneProblematicBatch = false :=
  ⟨fallback_iff_half_problematic.2.1, fallback_iff_half_problematic.2.2⟩
